import Mathlib

/-!
Shallow embedding of the rate-limiting, retry, scheduler-lifecycle and
image-normalization core of the instagram-bot repository, together with
theorems settling the frozen claims about it.

Conventions of the embedding:
* wall-clock instants and durations (Python floats from `time.time()`)
  are modelled as rationals `ℚ`;
* Python `int(x)` on the nonnegative values appearing here is `⌊x⌋.toNat`;
* strings are modelled as `List Char` (Python `str` is a char sequence,
  `in` is substring containment);
* an exception-raising Python callable is modelled as an `Except`-valued
  function; `try/except` becomes a `match` on that value.
-/

/-! ## Decimal rendering of naturals (Python f-string interpolation of ints) -/

/-- The ten decimal digit characters. -/
def decDigits : List Char := "0123456789".data

/-- The decimal digit character of `d % 10`. -/
def digitChar (d : ℕ) : Char :=
  decDigits.get ⟨d % 10, by have h : decDigits.length = 10 := rfl; rw [h]; omega⟩

/-- Decimal rendering with a structural fuel argument (so that the kernel can
evaluate it); `fuel` bounds the number of digits produced. -/
def natCharsAux : ℕ → ℕ → List Char
  | 0, _ => []
  | fuel + 1, n =>
    if n < 10 then [digitChar n]
    else natCharsAux fuel (n / 10) ++ [digitChar (n % 10)]

/-- Decimal rendering of a natural number, most significant digit first. -/
def natChars (n : ℕ) : List Char := natCharsAux (n + 1) n

theorem digitChar_mem_decDigits (d : ℕ) : digitChar d ∈ decDigits := by
  unfold digitChar
  exact List.get_mem _ _ _

theorem mem_natCharsAux_mem_decDigits {c : Char} {fuel n : ℕ}
    (h : c ∈ natCharsAux fuel n) : c ∈ decDigits := by
  induction fuel generalizing n with
  | zero => simp [natCharsAux] at h
  | succ fuel ih =>
    rw [natCharsAux] at h
    split at h
    · simp only [List.mem_singleton] at h
      exact h ▸ digitChar_mem_decDigits n
    · rcases List.mem_append.1 h with h1 | h1
      · exact ih h1
      · simp only [List.mem_singleton] at h1
        exact h1 ▸ digitChar_mem_decDigits (n % 10)

theorem mem_natChars_mem_decDigits {c : Char} {n : ℕ} (h : c ∈ natChars n) :
    c ∈ decDigits :=
  mem_natCharsAux_mem_decDigits h

theorem toNat_le_of_mem_natChars {c : Char} {n : ℕ} (h : c ∈ natChars n) :
    c.toNat ≤ 57 := by
  have hd := mem_natChars_mem_decDigits h
  fin_cases hd <;> decide

/-! ## Infix-localization helpers for substring reasoning -/

theorem infix_right_of_len_le (u t v A B : List Char) (h : A ++ B = u ++ t ++ v)
    (hl : A.length ≤ u.length) : t <:+: B := by
  have hB : B = List.drop A.length (u ++ t ++ v) := by
    rw [← h]; simp
  refine ⟨List.drop A.length u, v, ?_⟩
  rw [hB, show u ++ t ++ v = u ++ (t ++ v) by simp, List.drop_append_of_le_length hl,
    List.append_assoc]

theorem pos_not_in_left (A B u t v : List Char) (c : Char) (h : A ++ B = u ++ (c :: t) ++ v)
    (hc : c ∉ A) : A.length ≤ u.length := by
  by_contra hlt
  push_neg at hlt
  have h1 : (A ++ B)[u.length]? = some c := by
    rw [h, List.getElem?_append_left (by simp : u.length < (u ++ c :: t).length),
      List.getElem?_append_right (le_refl u.length)]
    simp
  rw [List.getElem?_append_left hlt] at h1
  exact hc (List.getElem?_mem h1)

/-- If a nonempty pattern occurs inside `A ++ B` and its first character does not
occur in `A`, the whole pattern occurs inside `B`. -/
theorem infix_right_of_head_notMem (A B t : List Char) (c : Char) (h : (c :: t) <:+: A ++ B)
    (hc : c ∉ A) : (c :: t) <:+: B := by
  obtain ⟨u, v, huv⟩ := h
  exact infix_right_of_len_le u (c :: t) v A B huv.symm (pos_not_in_left A B u t v c huv.symm hc)

/-- Substring containment test, modelling Python `pattern in s`. -/
def containsSub (pat s : List Char) : Bool := decide (pat <:+: s)

/-! ## security.py : AdvancedRateLimiter -/

/-- State of `AdvancedRateLimiter` (security.py, lines 231-259). -/
structure AdvancedRateLimiter where
  calls_per_minute : ℕ
  calls_per_hour : ℕ
  burst_limit : ℕ
  cooldown_period : ℚ
  call_history : List ℚ
  burst_count : ℕ
  last_burst_reset : ℚ
  cooldown_until : ℚ
  total_calls : ℕ
  blocked_calls : ℕ
deriving DecidableEq

/-- The denial/permission reasons produced by `can_make_call`, with the data
interpolated into the Python f-strings. -/
inductive Reason where
  | cooldownActive (remaining : ℕ)
  | minuteLimit (n : ℕ)
  | hourLimit (n : ℕ)
  | burstLimit (n : ℕ)
  | ok
deriving DecidableEq

/-- The exact reason string built by `can_make_call` (security.py 261-291). -/
def Reason.render : Reason → List Char
  | .cooldownActive r => "Cooldown aktywny przez ".data ++ natChars r ++ "s".data
  | .minuteLimit n => "Przekroczono limit ".data ++ natChars n ++ " wywołań/min".data
  | .hourLimit n => "Przekroczono limit ".data ++ natChars n ++ " wywołań/h".data
  | .burstLimit n => "Przekroczono burst limit ".data ++ natChars n ++ " wywołań".data
  | .ok => "OK".data

/-- Embeds `_cleanup_history` (security.py 337-341): keep only entries newer than one hour. -/
def cleanup_history (current_time : ℚ) (history : List ℚ) : List ℚ :=
  history.filter (fun t => decide (current_time - 3600 < t))

/-- Embeds the length of `[t for t in self.call_history if current_time - t <= 60]`. -/
def minute_calls (current_time : ℚ) (history : List ℚ) : ℕ :=
  (history.filter (fun t => decide (current_time - t ≤ 60))).length

/-- Embeds the length of `[t for t in self.call_history if current_time - t <= 3600]`. -/
def hour_calls (current_time : ℚ) (history : List ℚ) : ℕ :=
  (history.filter (fun t => decide (current_time - t ≤ 3600))).length

/-- Embeds `AdvancedRateLimiter.can_make_call` (security.py 261-291), with the value of
`time.time()` passed explicitly.  Returns the updated state (history pruning and
burst-reset are in-place mutations), the verdict, and the reason. -/
def AdvancedRateLimiter.can_make_call (s : AdvancedRateLimiter) (now : ℚ) :
    AdvancedRateLimiter × Bool × Reason :=
  if now < s.cooldown_until then
    (s, false, .cooldownActive (⌊s.cooldown_until - now⌋).toNat)
  else
    let s1 := { s with call_history := cleanup_history now s.call_history }
    if s1.calls_per_minute ≤ minute_calls now s1.call_history then
      (s1, false, .minuteLimit s1.calls_per_minute)
    else if s1.calls_per_hour ≤ hour_calls now s1.call_history then
      (s1, false, .hourLimit s1.calls_per_hour)
    else
      let s2 := if 60 < now - s1.last_burst_reset then
        { s1 with burst_count := 0, last_burst_reset := now } else s1
      if s2.burst_limit ≤ s2.burst_count then
        (s2, false, .burstLimit s2.burst_limit)
      else
        (s2, true, .ok)

/-- Embeds `AdvancedRateLimiter.record_call` (security.py 293-303). -/
def AdvancedRateLimiter.record_call (s : AdvancedRateLimiter) (now : ℚ) :
    AdvancedRateLimiter :=
  { s with call_history := s.call_history ++ [now],
           burst_count := s.burst_count + 1,
           total_calls := s.total_calls + 1 }

/-- Embeds `AdvancedRateLimiter.record_blocked_call` (security.py 305-309). -/
def AdvancedRateLimiter.record_blocked_call (s : AdvancedRateLimiter) :
    AdvancedRateLimiter :=
  { s with blocked_calls := s.blocked_calls + 1 }

/-- Embeds `AdvancedRateLimiter.trigger_cooldown` (security.py 311-315). -/
def AdvancedRateLimiter.trigger_cooldown (s : AdvancedRateLimiter) (now : ℚ) :
    AdvancedRateLimiter :=
  { s with cooldown_until := now + s.cooldown_period }

/-- Embeds `AdvancedRateLimiter.wait_if_needed` (security.py 317-335).  The list `ts`
supplies the `time.time()` reading of each successive check iteration (the
recursion after the sleep re-reads the clock); `none` means the supplied clock
readings were exhausted before the recursion returned. -/
def AdvancedRateLimiter.wait_if_needed (s : AdvancedRateLimiter) :
    List ℚ → Option (AdvancedRateLimiter × Bool)
  | [] => none
  | now :: rest =>
    if (s.can_make_call now).2.1 then
      some ((s.can_make_call now).1.record_call now, true)
    else if containsSub "wywołań/min".data (s.can_make_call now).2.2.render then
      ((s.can_make_call now).1.record_blocked_call).wait_if_needed rest
    else
      some ((s.can_make_call now).1.record_blocked_call, false)

theorem notMem_natChars_of_toNat_gt {c : Char} (h57 : 57 < c.toNat) (n : ℕ) :
    c ∉ natChars n :=
  fun hm => absurd (toNat_le_of_mem_natChars hm) (by omega)

/-- The substring test `"wywołań/min" in reason` performed by `wait_if_needed`
holds exactly for the per-minute-limit reason, whatever numbers are
interpolated into the reason strings. -/
theorem containsSub_minute_iff (r : Reason) :
    containsSub "wywołań/min".data r.render = true ↔ ∃ n, r = Reason.minuteLimit n := by
  unfold containsSub
  rw [decide_eq_true_eq]
  cases r with
  | cooldownActive m =>
    simp only [Reason.render]
    constructor
    · intro h
      have hsub := h.sublist.subset
      have hl : 'ł' ∈ "Cooldown aktywny przez ".data ++ natChars m ++ "s".data :=
        hsub (by decide)
      rcases List.mem_append.1 hl with hl1 | hl1
      · rcases List.mem_append.1 hl1 with hl2 | hl2
        · exact absurd hl2 (by decide)
        · exact absurd hl2 (notMem_natChars_of_toNat_gt (by decide) m)
      · exact absurd hl1 (by decide)
    · rintro ⟨n, h⟩; cases h
  | minuteLimit n =>
    simp only [Reason.render]
    constructor
    · intro _; exact ⟨n, rfl⟩
    · rintro ⟨m, h⟩
      refine ⟨"Przekroczono limit ".data ++ natChars n ++ [' '], [], ?_⟩
      have hsp : (" wywołań/min".data : List Char) = ' ' :: "wywołań/min".data := by decide
      simp [hsp]
  | hourLimit n =>
    simp only [Reason.render]
    constructor
    · intro h
      have hsmall : (['ń', '/', 'm'] : List Char) <:+: "wywołań/min".data := by decide
      have h2 : (['ń', '/', 'm'] : List Char) <:+:
          ("Przekroczono limit ".data ++ natChars n) ++ " wywołań/h".data := by
        have := hsmall.trans h
        simpa [List.append_assoc] using this
      have h3 : (['ń', '/', 'm'] : List Char) <:+: " wywołań/h".data := by
        refine infix_right_of_head_notMem _ _ ['/', 'm'] 'ń' h2 ?_
        intro hmem
        rcases List.mem_append.1 hmem with h4 | h4
        · exact absurd h4 (by decide)
        · exact absurd h4 (notMem_natChars_of_toNat_gt (by decide) n)
      exact absurd h3 (by decide)
    · rintro ⟨m, h⟩; cases h
  | burstLimit n =>
    simp only [Reason.render]
    constructor
    · intro h
      have hsmall : (['ń', '/'] : List Char) <:+: "wywołań/min".data := by decide
      have h2 : (['ń', '/'] : List Char) <:+:
          ("Przekroczono burst limit ".data ++ natChars n) ++ " wywołań".data := by
        have := hsmall.trans h
        simpa [List.append_assoc] using this
      have h3 : (['ń', '/'] : List Char) <:+: " wywołań".data := by
        refine infix_right_of_head_notMem _ _ ['/'] 'ń' h2 ?_
        intro hmem
        rcases List.mem_append.1 hmem with h4 | h4
        · exact absurd h4 (by decide)
        · exact absurd h4 (notMem_natChars_of_toNat_gt (by decide) n)
      exact absurd h3 (by decide)
    · rintro ⟨m, h⟩; cases h
  | ok =>
    simp only [Reason.render]
    constructor
    · intro h
      have := h.length_le
      simp at this
    · rintro ⟨m, h⟩; cases h

theorem can_make_call_counters (s : AdvancedRateLimiter) (now : ℚ) :
    (s.can_make_call now).1.blocked_calls = s.blocked_calls ∧
    (s.can_make_call now).1.total_calls = s.total_calls := by
  simp only [AdvancedRateLimiter.can_make_call]
  split_ifs <;> exact ⟨rfl, rfl⟩

theorem wait_run_counts (ts : List ℚ) :
    ∀ (s s' : AdvancedRateLimiter) (res : Bool),
      s.wait_if_needed ts = some (s', res) →
      ∃ k, 1 ≤ k ∧ k ≤ ts.length ∧
        s'.blocked_calls + (if res then 1 else 0) = s.blocked_calls + k ∧
        s'.total_calls = s.total_calls + (if res then 1 else 0) := by
  induction ts with
  | nil => intro s s' res h; simp [AdvancedRateLimiter.wait_if_needed] at h
  | cons now rest ih =>
    intro s s' res h
    rw [AdvancedRateLimiter.wait_if_needed] at h
    obtain ⟨hb, ht⟩ := can_make_call_counters s now
    by_cases hc : (s.can_make_call now).2.1
    · rw [if_pos hc] at h
      obtain ⟨rfl, rfl⟩ : (s.can_make_call now).1.record_call now = s' ∧ true = res := by
        have := Option.some.inj h
        exact ⟨congrArg Prod.fst this, congrArg Prod.snd this⟩
      refine ⟨1, le_refl 1, by simp, ?_, ?_⟩ <;>
        simp [AdvancedRateLimiter.record_call, hb, ht]
    · rw [if_neg hc] at h
      by_cases hm : containsSub "wywołań/min".data (s.can_make_call now).2.2.render = true
      · rw [if_pos hm] at h
        obtain ⟨k, hk1, hk2, hk3, hk4⟩ := ih _ _ _ h
        refine ⟨k + 1, by omega, by simp; omega, ?_, ?_⟩
        · simp only [AdvancedRateLimiter.record_blocked_call] at hk3
          omega
        · simp only [AdvancedRateLimiter.record_blocked_call] at hk4
          omega
      · rw [if_neg hm] at h
        obtain ⟨rfl, rfl⟩ : (s.can_make_call now).1.record_blocked_call = s' ∧ false = res := by
          have := Option.some.inj h
          exact ⟨congrArg Prod.fst this, congrArg Prod.snd this⟩
        refine ⟨1, le_refl 1, by simp, ?_, ?_⟩ <;>
          simp [AdvancedRateLimiter.record_blocked_call, hb, ht]

/-- Claim C1 (amended): `wait_if_needed` first evaluates `can_make_call`; on every
denial it records the blocked call (including per-minute denials, before waiting);
if the denial reason is the per-minute limit it sleeps and re-checks recursively;
if the denial is for cooldown or any other reason it returns `false` without
waiting; if allowed it calls `record_call` and returns `true`.  Consequently a
run making `k` checks increments `blocked_calls` by `k - 1` when finally admitted
and by `k` when it ends in a non-minute denial, and increments `total_calls`
exactly when admitted. -/
theorem wait_if_needed_spec (s : AdvancedRateLimiter) :
    (∀ (now : ℚ) (rest : List ℚ),
      ((s.can_make_call now).2.1 = true →
        s.wait_if_needed (now :: rest) =
          some ((s.can_make_call now).1.record_call now, true)) ∧
      ((s.can_make_call now).2.1 = false →
        (∃ n, (s.can_make_call now).2.2 = Reason.minuteLimit n) →
        s.wait_if_needed (now :: rest) =
          ((s.can_make_call now).1.record_blocked_call).wait_if_needed rest) ∧
      ((s.can_make_call now).2.1 = false →
        (∀ n, (s.can_make_call now).2.2 ≠ Reason.minuteLimit n) →
        s.wait_if_needed (now :: rest) =
          some ((s.can_make_call now).1.record_blocked_call, false))) ∧
    (∀ (ts : List ℚ) (s' : AdvancedRateLimiter) (res : Bool),
      s.wait_if_needed ts = some (s', res) →
      ∃ k, 1 ≤ k ∧ k ≤ ts.length ∧
        s'.blocked_calls + (if res then 1 else 0) = s.blocked_calls + k ∧
        s'.total_calls = s.total_calls + (if res then 1 else 0)) := by
  constructor
  · intro now rest
    refine ⟨?_, ?_, ?_⟩
    · intro hc
      rw [AdvancedRateLimiter.wait_if_needed, if_pos hc]
    · intro hc hmin
      have hm : containsSub "wywołań/min".data (s.can_make_call now).2.2.render = true :=
        (containsSub_minute_iff _).2 hmin
      rw [AdvancedRateLimiter.wait_if_needed, if_neg (by simp [hc]), if_pos hm]
    · intro hc hnot
      have hm : containsSub "wywołań/min".data (s.can_make_call now).2.2.render = false := by
        rw [Bool.eq_false_iff]
        intro habs
        obtain ⟨n, hn⟩ := (containsSub_minute_iff _).1 habs
        exact hnot n hn
      rw [AdvancedRateLimiter.wait_if_needed, if_neg (by simp [hc]), if_neg (by simp [hm])]
  · exact fun ts => wait_run_counts ts s

/-- Claim C1 counterexample: starting from a limiter with `calls_per_minute = 1`
and one recorded call, a run whose only denial is the per-minute denial and
which is then admitted still ends with `blocked_calls = 1`: the blocked call is
recorded on the per-minute denial as well, not exactly in the cooldown/other
branch as the claim states. -/
theorem wait_if_needed_records_blocked_on_minute_denial :
    (AdvancedRateLimiter.wait_if_needed ⟨1, 1000, 10, 300, [0], 0, 0, 0, 0, 0⟩ [10, 100]).map
      (fun p => (p.2, p.1.blocked_calls, p.1.total_calls)) = some (true, 1, 1) := by
  simp only [AdvancedRateLimiter.wait_if_needed, AdvancedRateLimiter.can_make_call,
    cleanup_history, minute_calls, hour_calls, AdvancedRateLimiter.record_blocked_call,
    AdvancedRateLimiter.record_call]
  norm_num [List.filter, containsSub, Reason.render, natChars, natCharsAux, digitChar, decDigits]
  split_ifs with h
  · exact ⟨_, rfl, rfl, rfl⟩
  · exact absurd (by decide) h

theorem wait_if_needed_spec_witness :
    ∃ k, 1 ≤ k ∧ k ≤ ([(10 : ℚ), 100] : List ℚ).length ∧
      (AdvancedRateLimiter.mk 1 1000 10 300 [0, 100] 1 100 0 1 1).blocked_calls +
          (if true then 1 else 0) =
        (AdvancedRateLimiter.mk 1 1000 10 300 [0] 0 0 0 0 0).blocked_calls + k ∧
      (AdvancedRateLimiter.mk 1 1000 10 300 [0, 100] 1 100 0 1 1).total_calls =
        (AdvancedRateLimiter.mk 1 1000 10 300 [0] 0 0 0 0 0).total_calls +
          (if true then 1 else 0) :=
  (wait_if_needed_spec ⟨1, 1000, 10, 300, [0], 0, 0, 0, 0, 0⟩).2 [10, 100]
    ⟨1, 1000, 10, 300, [0, 100], 1, 100, 0, 1, 1⟩ true (by
      simp only [AdvancedRateLimiter.wait_if_needed, AdvancedRateLimiter.can_make_call,
        cleanup_history, minute_calls, hour_calls, AdvancedRateLimiter.record_blocked_call,
        AdvancedRateLimiter.record_call]
      norm_num [List.filter, containsSub, Reason.render, natChars, natCharsAux, digitChar,
        decDigits]
      decide)

/-- Claim C2: `can_make_call` evaluates its gates in order — cooldown first
(returning the state untouched, so no pruning or burst reset happens), then
history pruning, then the minute-window count, then the hour-window count
(each denial leaving the burst fields untouched), then the burst-window reset,
then the burst limit; a denial at any gate leaves the later gates unevaluated. -/
theorem can_make_call_gate_order (s : AdvancedRateLimiter) (now : ℚ) :
    (now < s.cooldown_until →
      s.can_make_call now =
        (s, false, Reason.cooldownActive (⌊s.cooldown_until - now⌋).toNat)) ∧
    (s.cooldown_until ≤ now →
      (s.calls_per_minute ≤ minute_calls now (cleanup_history now s.call_history) →
        s.can_make_call now =
          ({ s with call_history := cleanup_history now s.call_history }, false,
           Reason.minuteLimit s.calls_per_minute)) ∧
      (minute_calls now (cleanup_history now s.call_history) < s.calls_per_minute →
        (s.calls_per_hour ≤ hour_calls now (cleanup_history now s.call_history) →
          s.can_make_call now =
            ({ s with call_history := cleanup_history now s.call_history }, false,
             Reason.hourLimit s.calls_per_hour)) ∧
        (hour_calls now (cleanup_history now s.call_history) < s.calls_per_hour →
          (60 < now - s.last_burst_reset →
            (s.burst_limit = 0 →
              s.can_make_call now =
                ({ s with call_history := cleanup_history now s.call_history,
                          burst_count := 0, last_burst_reset := now }, false,
                 Reason.burstLimit s.burst_limit)) ∧
            (0 < s.burst_limit →
              s.can_make_call now =
                ({ s with call_history := cleanup_history now s.call_history,
                          burst_count := 0, last_burst_reset := now }, true, Reason.ok))) ∧
          (now - s.last_burst_reset ≤ 60 →
            (s.burst_limit ≤ s.burst_count →
              s.can_make_call now =
                ({ s with call_history := cleanup_history now s.call_history }, false,
                 Reason.burstLimit s.burst_limit)) ∧
            (s.burst_count < s.burst_limit →
              s.can_make_call now =
                ({ s with call_history := cleanup_history now s.call_history }, true,
                 Reason.ok)))))) := by
  refine ⟨fun h1 => ?_,
    fun h1 => ⟨fun h2 => ?_,
      fun h2 => ⟨fun h3 => ?_,
        fun h3 => ⟨fun h4 => ⟨fun h5 => ?_, fun h5 => ?_⟩,
          fun h4 => ⟨fun h5 => ?_, fun h5 => ?_⟩⟩⟩⟩⟩ <;>
  · simp only [AdvancedRateLimiter.can_make_call]
    split_ifs <;> first | rfl | omega | (exfalso; linarith)

theorem can_make_call_gate_order_witness :
    AdvancedRateLimiter.can_make_call ⟨1, 1000, 10, 300, [], 0, 0, 10, 0, 0⟩ 4 =
      (⟨1, 1000, 10, 300, [], 0, 0, 10, 0, 0⟩, false,
        Reason.cooldownActive (⌊(10 : ℚ) - 4⌋).toNat) :=
  (can_make_call_gate_order ⟨1, 1000, 10, 300, [], 0, 0, 10, 0, 0⟩ 4).1 (by norm_num)

/-- Claim C8: `trigger_cooldown` at time `t` sets the cooldown deadline to
`t + cooldown_period`, and no later check or recording moves it, so every
`can_make_call` at `now < t + cooldown_period` is denied with a reason
containing "Cooldown"; once `now ≥ t + cooldown_period` the cooldown gate no
longer produces a denial, and if the remaining gates pass, the call is
permitted again. -/
theorem trigger_cooldown_blocks_until_expiry (s : AdvancedRateLimiter) (t now : ℚ) :
    (s.trigger_cooldown t).cooldown_until = t + s.cooldown_period ∧
    (∀ (s1 : AdvancedRateLimiter) (u v : ℚ),
      (s1.can_make_call u).1.cooldown_until = s1.cooldown_until ∧
      (s1.record_call v).cooldown_until = s1.cooldown_until ∧
      s1.record_blocked_call.cooldown_until = s1.cooldown_until) ∧
    (now < t + s.cooldown_period →
      ((s.trigger_cooldown t).can_make_call now).2.1 = false ∧
      "Cooldown".data <:+: ((s.trigger_cooldown t).can_make_call now).2.2.render) ∧
    (t + s.cooldown_period ≤ now →
      (∀ k, ((s.trigger_cooldown t).can_make_call now).2.2 ≠ Reason.cooldownActive k) ∧
      (minute_calls now (cleanup_history now s.call_history) < s.calls_per_minute →
        hour_calls now (cleanup_history now s.call_history) < s.calls_per_hour →
        (if 60 < now - s.last_burst_reset then 0 else s.burst_count) < s.burst_limit →
        ((s.trigger_cooldown t).can_make_call now).2.1 = true)) := by
  refine ⟨rfl, ?_, ?_, ?_⟩
  · intro s1 u v
    refine ⟨?_, rfl, rfl⟩
    simp only [AdvancedRateLimiter.can_make_call]
    split_ifs <;> rfl
  · intro h
    have hc : now < (s.trigger_cooldown t).cooldown_until := by
      simpa [AdvancedRateLimiter.trigger_cooldown] using h
    constructor
    · simp only [AdvancedRateLimiter.can_make_call, if_pos hc]
    · simp only [AdvancedRateLimiter.can_make_call, if_pos hc, Reason.render]
      refine ⟨[], " aktywny przez ".data ++
        natChars (⌊(s.trigger_cooldown t).cooldown_until - now⌋).toNat ++ "s".data, ?_⟩
      have hsplit : ("Cooldown aktywny przez ".data : List Char) =
          "Cooldown".data ++ " aktywny przez ".data := by decide
      simp [hsplit]
  · intro h
    have hc : ¬ now < (s.trigger_cooldown t).cooldown_until := by
      simp only [AdvancedRateLimiter.trigger_cooldown, not_lt]
      linarith
    constructor
    · intro k
      simp only [AdvancedRateLimiter.can_make_call, if_neg hc,
        AdvancedRateLimiter.trigger_cooldown]
      split_ifs <;> first | (exfalso; linarith) | simp
    · intro hm hh hb
      by_cases hw : 60 < now - s.last_burst_reset
      · rw [if_pos hw] at hb
        simp only [AdvancedRateLimiter.can_make_call, if_neg hc,
          AdvancedRateLimiter.trigger_cooldown]
        split_ifs <;> first | rfl | omega | linarith
      · rw [if_neg hw] at hb
        simp only [AdvancedRateLimiter.can_make_call, if_neg hc,
          AdvancedRateLimiter.trigger_cooldown]
        split_ifs <;> first | rfl | omega | linarith

theorem trigger_cooldown_blocks_until_expiry_witness :
    ((AdvancedRateLimiter.trigger_cooldown ⟨1, 1000, 10, 300, [], 0, 0, 0, 0, 0⟩
        0).can_make_call 100).2.1 = false ∧
    "Cooldown".data <:+:
      ((AdvancedRateLimiter.trigger_cooldown ⟨1, 1000, 10, 300, [], 0, 0, 0, 0, 0⟩
        0).can_make_call 100).2.2.render :=
  (trigger_cooldown_blocks_until_expiry ⟨1, 1000, 10, 300, [], 0, 0, 0, 0, 0⟩ 0 100).2.2.1
    (by norm_num)

/-! ## src/services/scheduler.py : Scheduler -/

/-- A publish-task thread handle: its identifier and whether it is alive. -/
structure TaskThread where
  tid : ℕ
  alive : Bool
deriving DecidableEq

/-- A registered cleanup callback: an identifier and whether invoking it raises. -/
structure Callback where
  cid : ℕ
  raises : Bool
deriving DecidableEq

/-- Invoking one cleanup callback; `Except.error` models the callback raising. -/
def Callback.invoke (cb : Callback) : Except Unit Unit :=
  if cb.raises then .error () else .ok ()

/-- State of `Scheduler` (scheduler.py 15-36). -/
structure Scheduler where
  target_hour : ℕ
  target_minute : ℕ
  check_interval : ℕ
  current_thread : Option TaskThread
  next_thread_id : ℕ
  is_running : Bool
  shutdown_event : Bool
  cleanup_callbacks : List Callback
deriving DecidableEq

/-- Embeds `Scheduler._is_task_running` (scheduler.py 101-103):
`self.current_thread is not None and self.current_thread.is_alive()`. -/
def Scheduler.is_task_running (s : Scheduler) : Bool :=
  match s.current_thread with
  | some th => th.alive
  | none => false

/-- Embeds `Scheduler._start_publish_task` (scheduler.py 105-113): starts a fresh
thread only when no task is running; returns the started thread id, `none`
when the trigger was skipped. -/
def Scheduler.start_publish_task (s : Scheduler) : Scheduler × Option ℕ :=
  if ¬ s.is_task_running then
    ({ s with current_thread := some ⟨s.next_thread_id, true⟩,
              next_thread_id := s.next_thread_id + 1 }, some s.next_thread_id)
  else
    (s, none)

/-- One iteration of the polling loop body of `Scheduler.start`
(scheduler.py 133-139): trigger the publish task when the target time matched. -/
def Scheduler.poll_tick (s : Scheduler) (should_run_now : Bool) : Scheduler × Option ℕ :=
  if should_run_now then s.start_publish_task else (s, none)

/-- The bootstrap part of `Scheduler.start` (scheduler.py 126-130): set the
running flags, then launch the first publish task. -/
def Scheduler.start_bootstrap (s : Scheduler) : Scheduler × Option ℕ :=
  ({ s with is_running := true, shutdown_event := false } : Scheduler).start_publish_task

/-- Embeds `Scheduler._execute_cleanup_callbacks` (scheduler.py 69-75): invoke every
callback in order, each wrapped in try/except that logs and continues.
Returns the identifiers of the callbacks that were invoked, in order. -/
def execute_cleanup_callbacks : List Callback → List ℕ
  | [] => []
  | cb :: rest =>
    match cb.invoke with
    | .ok _ => cb.cid :: execute_cleanup_callbacks rest
    | .error _ => cb.cid :: execute_cleanup_callbacks rest

/-- Embeds `Scheduler.graceful_shutdown` (scheduler.py 155-186): no-op when not
running; otherwise clear the running flag, set the shutdown event, join the
in-flight task (bounded wait, no modelled state change), execute the cleanup
callbacks, and release the thread handle (`_cleanup_resources`, 188-201).
Returns the identifiers of the cleanup callbacks executed by this call. -/
def Scheduler.graceful_shutdown (s : Scheduler) : Scheduler × List ℕ :=
  if ¬ s.is_running then
    (s, [])
  else
    ({ s with is_running := false, shutdown_event := true, current_thread := none },
     execute_cleanup_callbacks s.cleanup_callbacks)

/-- Embeds `Scheduler._publish_task` (scheduler.py 77-91): run the publisher inside a
try/except that catches any exception at the task boundary; the returned
value carries the exception that was caught and logged, if any. -/
def publish_task {E : Type} (publish : Except E Unit) : Except E (Option E) :=
  match publish with
  | .ok _ => .ok none
  | .error e => .ok (some e)

/-- Embeds `Scheduler.run_once` (scheduler.py 115-118): synchronous manual invocation
of the publish task. -/
def run_once {E : Type} (publish : Except E Unit) : Except E (Option E) :=
  publish_task publish

theorem execute_callbacks_map (cbs : List Callback) :
    execute_cleanup_callbacks cbs = cbs.map Callback.cid := by
  induction cbs with
  | nil => rfl
  | cons cb rest ih =>
    rw [execute_cleanup_callbacks]
    cases h : cb.invoke <;> simp [ih]

/-- Claim C3: `graceful_shutdown` is idempotent — when `is_running` is already
false it returns without running any cleanup callback; starting from a running
scheduler, the first call runs every registered callback exactly once in
registration order and the second call is a no-op running none. -/
theorem graceful_shutdown_idempotent (s : Scheduler) :
    (s.is_running = false → s.graceful_shutdown = (s, [])) ∧
    (s.is_running = true →
      s.graceful_shutdown.2 = s.cleanup_callbacks.map Callback.cid ∧
      s.graceful_shutdown.1.graceful_shutdown = (s.graceful_shutdown.1, []) ∧
      s.graceful_shutdown.2 ++ s.graceful_shutdown.1.graceful_shutdown.2 =
        s.cleanup_callbacks.map Callback.cid) := by
  constructor
  · intro h
    simp [Scheduler.graceful_shutdown, h]
  · intro h
    have h1 : s.graceful_shutdown =
        ({ s with is_running := false, shutdown_event := true, current_thread := none },
         execute_cleanup_callbacks s.cleanup_callbacks) := by
      simp [Scheduler.graceful_shutdown, h]
    rw [h1]
    refine ⟨execute_callbacks_map _, ?_, ?_⟩ <;>
      simp [Scheduler.graceful_shutdown, execute_callbacks_map]

theorem graceful_shutdown_idempotent_witness :
    Scheduler.graceful_shutdown ⟨16, 0, 60, none, 0, false, false, [⟨1, false⟩]⟩ =
      (⟨16, 0, 60, none, 0, false, false, [⟨1, false⟩]⟩, []) :=
  (graceful_shutdown_idempotent ⟨16, 0, 60, none, 0, false, false, [⟨1, false⟩]⟩).1 rfl

/-- Claim C4: when the current task thread is alive, `_start_publish_task`
does not create or start a second task — the trigger is skipped, not queued —
whether it is invoked directly, from a target-time trigger of the polling
loop, or from the bootstrap step of `start`. -/
theorem start_publish_task_single_flight (s : Scheduler) (h : s.is_task_running = true) :
    s.start_publish_task = (s, none) ∧
    (∀ b, s.poll_tick b = (s, none)) ∧
    s.start_bootstrap =
      ({ s with is_running := true, shutdown_event := false }, none) := by
  have hstart : s.start_publish_task = (s, none) := by
    simp [Scheduler.start_publish_task, h]
  refine ⟨hstart, ?_, ?_⟩
  · intro b
    cases b <;> simp [Scheduler.poll_tick, hstart]
  · have hr : ({ s with is_running := true, shutdown_event := false } :
        Scheduler).is_task_running = true := h
    simp [Scheduler.start_bootstrap, Scheduler.start_publish_task, hr]

theorem start_publish_task_single_flight_witness :
    Scheduler.start_publish_task ⟨16, 0, 60, some ⟨0, true⟩, 1, true, false, []⟩ =
      (⟨16, 0, 60, some ⟨0, true⟩, 1, true, false, []⟩, none) :=
  (start_publish_task_single_flight ⟨16, 0, 60, some ⟨0, true⟩, 1, true, false, []⟩ rfl).1

/-- Claim C9: cleanup callbacks are executed with each callback's exception
caught and logged individually — for every prefix, raising callback and
suffix, every callback after the failing one still runs, in order. -/
theorem cleanup_callback_failure_does_not_abort (cbs1 cbs2 : List Callback) (cb : Callback)
    (hraise : cb.raises = true) :
    execute_cleanup_callbacks (cbs1 ++ cb :: cbs2) =
      cbs1.map Callback.cid ++ cb.cid :: cbs2.map Callback.cid := by
  rw [execute_callbacks_map]
  simp

theorem cleanup_callback_failure_does_not_abort_witness :
    execute_cleanup_callbacks ([⟨1, false⟩] ++ ⟨2, true⟩ :: [⟨3, false⟩]) =
      [Callback.cid ⟨1, false⟩] ++ Callback.cid ⟨2, true⟩ :: [Callback.cid ⟨3, false⟩] := by
  have h := cleanup_callback_failure_does_not_abort [⟨1, false⟩] [⟨3, false⟩] ⟨2, true⟩ rfl
  simpa using h

/-- Claim C10: `run_once` never propagates a publish failure to its caller —
for every behavior of the publisher, the exception is caught at the task
boundary inside `_publish_task`, so the synchronous manual invocation returns
normally, carrying the logged error if publication failed. -/
theorem run_once_never_raises {E : Type} (publish : Except E Unit) :
    (∃ logged, run_once publish = Except.ok logged) ∧
    (∀ e, publish = Except.error e → run_once publish = Except.ok (some e)) := by
  constructor
  · cases publish with
    | ok _ => exact ⟨none, rfl⟩
    | error e => exact ⟨some e, rfl⟩
  · intro e he
    rw [he]
    rfl

theorem run_once_never_raises_witness :
    run_once (Except.error 7) = Except.ok (some 7) :=
  (run_once_never_raises (Except.error 7)).2 7 rfl

/-! ## src/utils/utils.py : retry_with_backoff -/

/-- The attempt loop of `retry_with_backoff` (utils.py 29-62).  `op n` is the
outcome of invoking the wrapped operation on (0-indexed) attempt `n`;
`retryable e` models membership of the raised exception in the declared
`exceptions` tuple; `remaining` counts the attempts still permitted after the
current one.  Returns the final outcome and the number of invocations made
from this point on.  The backoff delay and jitter only affect timing, which is
not modelled.  On the last permitted attempt a retryable failure is re-raised
(`attempt == max_retries`) and a non-retryable one propagates uncaught; both
yield the same observable outcome. -/
def retryAttempts {E A : Type} (op : ℕ → Except E A) (retryable : E → Bool) :
    ℕ → ℕ → Except E A × ℕ
  | attempt, 0 =>
    (match op attempt with
     | .ok a => (.ok a, 1)
     | .error e => (.error e, 1))
  | attempt, remaining + 1 =>
    (match op attempt with
     | .ok a => (.ok a, 1)
     | .error e =>
       if retryable e then
         ((retryAttempts op retryable (attempt + 1) remaining).1,
          (retryAttempts op retryable (attempt + 1) remaining).2 + 1)
       else (.error e, 1))

/-- Embeds `retry_with_backoff(max_retries, ...)` applied to an operation: up to
`max_retries + 1` total invocations starting at attempt 0. -/
def retry_with_backoff {E A : Type} (max_retries : ℕ) (retryable : E → Bool)
    (op : ℕ → Except E A) : Except E A × ℕ :=
  retryAttempts op retryable 0 max_retries

theorem retryAttempts_succeeds {E A : Type} (op : ℕ → Except E A) (retryable : E → Bool) :
    ∀ (k rem start : ℕ) (a : A), k ≤ rem →
      (∀ i, i < k → ∃ e, op (start + i) = Except.error e ∧ retryable e = true) →
      op (start + k) = Except.ok a →
      retryAttempts op retryable start rem = (Except.ok a, k + 1) := by
  intro k
  induction k with
  | zero =>
    intro rem start a _ _ hok
    rw [Nat.add_zero] at hok
    cases rem <;> simp [retryAttempts, hok]
  | succ k ih =>
    intro rem start a hle hfail hok
    obtain ⟨r, rfl⟩ : ∃ r, rem = r + 1 := ⟨rem - 1, by omega⟩
    obtain ⟨e, he, hr⟩ := hfail 0 (by omega)
    rw [Nat.add_zero] at he
    have hrec := ih r (start + 1) a (by omega)
      (fun i hi => by
        obtain ⟨e', he', hr'⟩ := hfail (i + 1) (by omega)
        exact ⟨e', by rw [← he']; ring_nf, hr'⟩)
      (by rw [← hok]; ring_nf)
    rw [retryAttempts, he]
    simp [hr, hrec]

theorem retryAttempts_all_fail {E A : Type} (op : ℕ → Except E A) (retryable : E → Bool) :
    ∀ (rem start : ℕ),
      (∀ i, i ≤ rem → ∃ e, op (start + i) = Except.error e ∧ retryable e = true) →
      ∃ e, op (start + rem) = Except.error e ∧
        retryAttempts op retryable start rem = (Except.error e, rem + 1) := by
  intro rem
  induction rem with
  | zero =>
    intro start hfail
    obtain ⟨e, he, _⟩ := hfail 0 (le_refl 0)
    rw [Nat.add_zero] at he
    exact ⟨e, by rw [Nat.add_zero]; exact he, by simp [retryAttempts, he]⟩
  | succ r ih =>
    intro start hfail
    obtain ⟨e0, he0, hr0⟩ := hfail 0 (by omega)
    rw [Nat.add_zero] at he0
    obtain ⟨e, he, hrec⟩ := ih (start + 1)
      (fun i hi => by
        obtain ⟨e', he', hr'⟩ := hfail (i + 1) (by omega)
        exact ⟨e', by rw [← he']; ring_nf, hr'⟩)
    refine ⟨e, by rw [← he]; ring_nf, ?_⟩
    rw [retryAttempts, he0]
    simp [hr0, hrec]

/-- Claim C5: wrapped by `retry_with_backoff`, an operation that fails
retryably on the first `N - 1` attempts and succeeds on attempt `N`
(`N ≤ max_retries + 1`) yields the success value after exactly `N`
invocations; if every permitted attempt fails retryably, the final failure is
re-raised after exactly `max_retries + 1` invocations; a non-retryable
failure propagates immediately after exactly one invocation. -/
theorem retry_with_backoff_contract {E A : Type} (max_retries : ℕ) (retryable : E → Bool)
    (op : ℕ → Except E A) :
    (∀ (N : ℕ) (a : A), 1 ≤ N → N ≤ max_retries + 1 →
      (∀ i, i < N - 1 → ∃ e, op i = Except.error e ∧ retryable e = true) →
      op (N - 1) = Except.ok a →
      retry_with_backoff max_retries retryable op = (Except.ok a, N)) ∧
    ((∀ i, i ≤ max_retries → ∃ e, op i = Except.error e ∧ retryable e = true) →
      ∃ e, op max_retries = Except.error e ∧
        retry_with_backoff max_retries retryable op = (Except.error e, max_retries + 1)) ∧
    (∀ e, op 0 = Except.error e → retryable e = false →
      retry_with_backoff max_retries retryable op = (Except.error e, 1)) := by
  refine ⟨?_, ?_, ?_⟩
  · intro N a h1 h2 hfail hok
    have := retryAttempts_succeeds op retryable (N - 1) max_retries 0 a (by omega)
      (fun i hi => by simpa using hfail i hi) (by simpa using hok)
    rw [retry_with_backoff, this]
    congr 1
    omega
  · intro hfail
    have := retryAttempts_all_fail op retryable max_retries 0
      (fun i hi => by simpa using hfail i hi)
    simpa [retry_with_backoff] using this
  · intro e he hr
    rw [retry_with_backoff]
    cases max_retries <;> simp [retryAttempts, he, hr]

theorem retry_with_backoff_contract_witness :
    retry_with_backoff 3 (fun _ => true)
        (fun i => if i < 2 then Except.error 9 else Except.ok 42) = (Except.ok 42, 3) :=
  (retry_with_backoff_contract 3 (fun _ => true)
      (fun i => if i < 2 then Except.error 9 else Except.ok 42)).1 3 42
    (by norm_num) (by norm_num)
    (fun i hi => ⟨9, by simp [show i < 2 by omega], rfl⟩)
    (by norm_num)

/-! ## src/utils/utils.py : RateLimiter -/

/-- State of the simple `RateLimiter` (utils.py 105-113). -/
structure RateLimiter where
  calls_per_minute : ℕ
  min_interval : ℚ
  last_call_time : ℚ
deriving DecidableEq

/-- Embeds `RateLimiter.__init__`: `min_interval = 60.0 / calls_per_minute`,
`last_call_time = 0.0`. -/
def RateLimiter.init (calls_per_minute : ℕ) : RateLimiter :=
  ⟨calls_per_minute, 60 / (calls_per_minute : ℚ), 0⟩

/-- The sleep requested by `wait_if_needed` when the first clock reading is
`t1`: `min_interval - (t1 - last_call_time)` when the gap is too small,
nothing otherwise (utils.py 122-125). -/
def RateLimiter.sleep_needed (s : RateLimiter) (t1 : ℚ) : ℚ :=
  if t1 - s.last_call_time < s.min_interval then
    s.min_interval - (t1 - s.last_call_time)
  else 0

/-- Embeds `RateLimiter.wait_if_needed` (utils.py 115-127): `t1` is the first
`time.time()` reading, `t2` the second one taken after the optional sleep
(the recorded call timestamp); returns the updated limiter and the sleep
duration that was requested. -/
def RateLimiter.wait_if_needed (s : RateLimiter) (t1 t2 : ℚ) : RateLimiter × ℚ :=
  ({ s with last_call_time := t2 }, s.sleep_needed t1)

/-- The call timestamps recorded by a sequence of `wait_if_needed` calls whose
successive clock readings are given by `ps`. -/
def RateLimiter.recorded_times (s : RateLimiter) : List (ℚ × ℚ) → List ℚ
  | [] => []
  | (t1, t2) :: rest => t2 :: (s.wait_if_needed t1 t2).1.recorded_times rest

/-- A run of clock readings is accurate when each second reading `t2` is taken
at least `sleep_needed t1` after the first reading `t1` (the clock is monotone
and `time.sleep` sleeps at least the requested duration). -/
def RateLimiter.accurate_clock (s : RateLimiter) : List (ℚ × ℚ) → Prop
  | [] => True
  | (t1, t2) :: rest =>
    t1 + s.sleep_needed t1 ≤ t2 ∧ (s.wait_if_needed t1 t2).1.accurate_clock rest

theorem wait_if_needed_step_spacing (s : RateLimiter) (t1 t2 : ℚ)
    (h : t1 + s.sleep_needed t1 ≤ t2) :
    s.last_call_time + s.min_interval ≤ t2 := by
  rw [RateLimiter.sleep_needed] at h
  split_ifs at h <;> linarith

theorem recorded_times_head_spacing (s : RateLimiter) (ps : List (ℚ × ℚ))
    (h : s.accurate_clock ps) :
    ∀ x ∈ (s.recorded_times ps).head?, s.last_call_time + s.min_interval ≤ x := by
  cases ps with
  | nil => simp [RateLimiter.recorded_times]
  | cons p rest =>
    obtain ⟨t1, t2⟩ := p
    obtain ⟨h1, _⟩ := h
    simp only [RateLimiter.recorded_times, List.head?_cons, Option.mem_some_iff]
    rintro x rfl
    exact wait_if_needed_step_spacing s t1 t2 h1

theorem recorded_times_chain (ps : List (ℚ × ℚ)) :
    ∀ (s : RateLimiter), s.accurate_clock ps →
      List.Chain' (fun a b => a + s.min_interval ≤ b) (s.recorded_times ps) := by
  induction ps with
  | nil => intro s _; simp [RateLimiter.recorded_times]
  | cons p rest ih =>
    intro s h
    obtain ⟨t1, t2⟩ := p
    obtain ⟨h1, h2⟩ := h
    rw [RateLimiter.recorded_times, List.chain'_cons']
    refine ⟨?_, ih _ h2⟩
    intro y hy
    have := recorded_times_head_spacing (s.wait_if_needed t1 t2).1 rest h2 y hy
    simpa [RateLimiter.wait_if_needed] using this

/-- Claim C7: for every sequence of `RateLimiter.wait_if_needed` calls on a
limiter built with `calls_per_minute`, consecutive recorded call timestamps
are never closer together than `min_interval = 60 / calls_per_minute`
(assuming a monotone clock and a `time.sleep` that sleeps at least the
requested duration). -/
theorem rate_limiter_min_spacing (calls_per_minute : ℕ) (ps : List (ℚ × ℚ))
    (h : (RateLimiter.init calls_per_minute).accurate_clock ps) :
    List.Chain' (fun a b => a + 60 / (calls_per_minute : ℚ) ≤ b)
      ((RateLimiter.init calls_per_minute).recorded_times ps) :=
  recorded_times_chain ps (RateLimiter.init calls_per_minute) h

theorem rate_limiter_min_spacing_witness :
    List.Chain' (fun a b => a + 60 / ((60 : ℕ) : ℚ) ≤ b)
      ((RateLimiter.init 60).recorded_times [(10, 10), (12, 12)]) :=
  rate_limiter_min_spacing 60 [(10, 10), (12, 12)] (by
    refine ⟨?_, ?_, trivial⟩ <;>
      norm_num [RateLimiter.sleep_needed, RateLimiter.init, RateLimiter.wait_if_needed])

/-! ## image_utils.py : Instagram aspect-ratio normalization -/

/-- An image, modelled by its pixel dimensions. -/
structure Img where
  width : ℕ
  height : ℕ
deriving DecidableEq

/-- PIL `img.crop((left, top, right, bottom))` produces an image of exactly
`(right - left) × (bottom - top)` pixels (regions outside the source are
padded), so only the box size matters for the dimensions. -/
def cropSize (left top right bottom : ℤ) : Img :=
  ⟨(right - left).toNat, (bottom - top).toNat⟩

/-- Target dimensions chosen by `dostosuj_proporcje_instagram`
(image_utils.py 47-62) from the aspect-ratio thresholds: ratio > 1.5 gives
landscape 1.91:1, ratio < 0.9 gives portrait 4:5, otherwise square 1:1. -/
def targetDims (w h : ℕ) : ℕ × ℕ :=
  if 3/2 < (w : ℚ) / (h : ℚ) then ((⌊(h : ℚ) * (191/100)⌋).toNat, h)
  else if (w : ℚ) / (h : ℚ) < 9/10 then (w, (⌊(w : ℚ) / (4/5)⌋).toNat)
  else (min w h, min w h)

/-- Embeds `dostosuj_proporcje_instagram` (image_utils.py 36-94): center-crop when
both source dimensions meet the target, otherwise uniformly upscale by the
larger of the two required factors and center-crop. -/
def dostosuj_proporcje_instagram (img : Img) : Img :=
  let w := img.width
  let h := img.height
  let tw := (targetDims w h).1
  let th := (targetDims w h).2
  if tw ≤ w ∧ th ≤ h then
    let left := ((w : ℤ) - (tw : ℤ)) / 2
    let top := ((h : ℤ) - (th : ℤ)) / 2
    cropSize left top (left + tw) (top + th)
  else
    let scale : ℚ := max ((tw : ℚ) / (w : ℚ)) ((th : ℚ) / (h : ℚ))
    let nw := (⌊(w : ℚ) * scale⌋).toNat
    let nh := (⌊(h : ℚ) * scale⌋).toNat
    let left := ((nw : ℤ) - (tw : ℤ)) / 2
    let top := ((nh : ℤ) - (th : ℤ)) / 2
    cropSize left top (left + tw) (top + th)

/-- The compliance test of `przetworz_lokalny_obraz` (image_utils.py 161-163):
within 0.05 of 1.0 (square) or 0.8 (portrait), or within 0.1 of 1.91
(landscape). -/
def ma_odpowiednie_proporcje (ratio : ℚ) : Bool :=
  decide (|ratio - 1| < 1/20) || decide (|ratio - 4/5| < 1/20) ||
    decide (|ratio - 191/100| < 1/10)

/-- Embeds `przetworz_lokalny_obraz` (image_utils.py 148-181): `none` models
returning the original path unchanged (image already compliant); `some`
carries the dimensions of the newly saved processed image. -/
def przetworz_lokalny_obraz (img : Img) : Option Img :=
  if ma_odpowiednie_proporcje ((img.width : ℚ) / (img.height : ℚ)) then none
  else some (dostosuj_proporcje_instagram img)

theorem le_floor_toNat {n : ℕ} {x : ℚ} (h : (n : ℚ) ≤ x) : n ≤ (⌊x⌋).toNat := by
  have h0 : (n : ℤ) ≤ ⌊x⌋ := Int.le_floor.2 (by exact_mod_cast h)
  omega

theorem dostosuj_dims (img : Img) :
    (dostosuj_proporcje_instagram img).width = (targetDims img.width img.height).1 ∧
    (dostosuj_proporcje_instagram img).height = (targetDims img.width img.height).2 := by
  simp only [dostosuj_proporcje_instagram, cropSize]
  split_ifs <;> constructor <;> simp

/-- Claim C6: an image whose aspect ratio is within 0.05 of 1.0 or 0.8, or
within 0.1 of 1.91, is returned unchanged; otherwise the target bucket is
chosen by ratio > 1.5 (landscape 1.91:1), ratio < 0.9 (portrait 4:5), else
square 1:1, the result has exactly the target dimensions, and in the
too-small case the uniform upscale by the larger of the two required factors
makes both dimensions meet or exceed the target before the center-crop. -/
theorem image_normalization_spec (img : Img) (hw : 0 < img.width) (hh : 0 < img.height) :
    (ma_odpowiednie_proporcje ((img.width : ℚ) / (img.height : ℚ)) = true →
      przetworz_lokalny_obraz img = none) ∧
    (ma_odpowiednie_proporcje ((img.width : ℚ) / (img.height : ℚ)) = false →
      przetworz_lokalny_obraz img = some (dostosuj_proporcje_instagram img) ∧
      (dostosuj_proporcje_instagram img).width = (targetDims img.width img.height).1 ∧
      (dostosuj_proporcje_instagram img).height = (targetDims img.width img.height).2) ∧
    (3/2 < (img.width : ℚ) / (img.height : ℚ) →
      targetDims img.width img.height =
        ((⌊(img.height : ℚ) * (191/100)⌋).toNat, img.height)) ∧
    ((img.width : ℚ) / (img.height : ℚ) < 9/10 →
      targetDims img.width img.height =
        (img.width, (⌊(img.width : ℚ) / (4/5)⌋).toNat)) ∧
    (¬ 3/2 < (img.width : ℚ) / (img.height : ℚ) →
      ¬ (img.width : ℚ) / (img.height : ℚ) < 9/10 →
      targetDims img.width img.height =
        (min img.width img.height, min img.width img.height)) ∧
    (¬ ((targetDims img.width img.height).1 ≤ img.width ∧
        (targetDims img.width img.height).2 ≤ img.height) →
      (targetDims img.width img.height).1 ≤
        (⌊(img.width : ℚ) *
          max (((targetDims img.width img.height).1 : ℚ) / (img.width : ℚ))
              (((targetDims img.width img.height).2 : ℚ) / (img.height : ℚ))⌋).toNat ∧
      (targetDims img.width img.height).2 ≤
        (⌊(img.height : ℚ) *
          max (((targetDims img.width img.height).1 : ℚ) / (img.width : ℚ))
              (((targetDims img.width img.height).2 : ℚ) / (img.height : ℚ))⌋).toNat) := by
  have hw' : (0 : ℚ) < (img.width : ℚ) := by exact_mod_cast hw
  have hh' : (0 : ℚ) < (img.height : ℚ) := by exact_mod_cast hh
  refine ⟨?_, ?_, ?_, ?_, ?_, ?_⟩
  · intro h
    simp [przetworz_lokalny_obraz, h]
  · intro h
    exact ⟨by simp [przetworz_lokalny_obraz, h], dostosuj_dims img⟩
  · intro h
    rw [targetDims, if_pos h]
  · intro h
    rw [targetDims, if_neg (by linarith), if_pos h]
  · intro h1 h2
    rw [targetDims, if_neg h1, if_neg h2]
  · intro _
    constructor
    · apply le_floor_toNat
      have h2 : ((targetDims img.width img.height).1 : ℚ) / (img.width : ℚ) ≤
          max (((targetDims img.width img.height).1 : ℚ) / (img.width : ℚ))
              (((targetDims img.width img.height).2 : ℚ) / (img.height : ℚ)) :=
        le_max_left _ _
      rw [div_le_iff₀ hw'] at h2
      rw [mul_comm]
      exact h2
    · apply le_floor_toNat
      have h2 : ((targetDims img.width img.height).2 : ℚ) / (img.height : ℚ) ≤
          max (((targetDims img.width img.height).1 : ℚ) / (img.width : ℚ))
              (((targetDims img.width img.height).2 : ℚ) / (img.height : ℚ)) :=
        le_max_right _ _
      rw [div_le_iff₀ hh'] at h2
      rw [mul_comm]
      exact h2

theorem image_normalization_spec_witness :
    targetDims 200 100 = ((⌊(100 : ℚ) * (191/100)⌋).toNat, 100) :=
  (image_normalization_spec ⟨200, 100⟩ (by norm_num) (by norm_num)).2.2.1 (by norm_num)
